import Mathlib

set_option maxHeartbeats 1000000
set_option maxRecDepth 100000

/-!
Verification development for the `cdb` constant-database reader
(`cdb.go`, `util.go`).  Go byte slices are embedded as `List Nat`
(each element a byte value), `uint32` arithmetic as `Nat` arithmetic
reduced modulo `2^32` exactly where the Go code wraps, and fallible
slicing/reads as `Option` (with `none` standing for a runtime
bounds panic, which `(*CDB).Data` recovers into a returned error).
-/

/-- Reduction modulo `2^32`, the wraparound of Go `uint32` arithmetic. -/
def u32mod (n : Nat) : Nat := n % 4294967296

theorem u32mod_eq_of_lt {n : Nat} (h : n < 4294967296) : u32mod n = n :=
  Nat.mod_eq_of_lt h

/-- Embeds `binary.LittleEndian.Uint32(l[off:])`: reads four bytes starting at
`off` as a little-endian 32-bit value, `none` when fewer than four bytes are
available (in Go this panics, caught by the `recover` in `Data`). -/
def readU32? (l : List Nat) (off : Nat) : Option Nat :=
  match l.get? off, l.get? (off + 1), l.get? (off + 2), l.get? (off + 3) with
  | some b0, some b1, some b2, some b3 =>
      some (b0 + 256 * (b1 + 256 * (b2 + 256 * b3)))
  | _, _, _, _ => none

/-- Little-endian 32-bit read as described by the spec's data model
(`{ ... : u32 }` little-endian fields), total with out-of-range bytes read
as zero; used on the specification side and for stating well-formedness. -/
def readU32spec (l : List Nat) (off : Nat) : Nat :=
  l.getD off 0 + 256 * (l.getD (off + 1) 0 + 256 * (l.getD (off + 2) 0 + 256 * l.getD (off + 3) 0))

/-- Embeds the Go slice expression `l[lo:hi]`: valid when `lo ≤ hi ≤ len l`,
otherwise `none` (a bounds panic in Go). -/
def slice? (l : List Nat) (lo hi : Nat) : Option (List Nat) :=
  if lo ≤ hi ∧ hi ≤ l.length then some ((l.drop lo).take (hi - lo)) else none

/-- Embeds the hash loop of `(*CDB).Data`:
`hashcode = 5381`, then for each byte `c` of the key,
`hashcode = ((hashcode << 5) + hashcode) ^ uint32(c)` in `uint32` arithmetic. -/
def hashCDB (key : List Nat) : Nat :=
  key.foldl (fun h c => u32mod (u32mod (h <<< 5) + h) ^^^ c) 5381

/-- Embeds `tablePointer` from `cdb.go` (`pos`, `nslots` are `uint32`). -/
structure TablePointer where
  pos : Nat
  nslots : Nat
deriving DecidableEq, Repr

/-- Embeds `CDB` from `cdb.go`: the parsed 256-entry header (a total function,
indexed only at `hashcode & 0xff < 256`) and the mapped bytes.  `none` models a
Go nil slice (the unmapped state: a zero-length database, or after `Close`). -/
structure CDB where
  header : Nat → TablePointer
  data : Option (List Nat)

/-- Result of `(*CDB).Data`: a found value, `ErrNotFound`, or the error produced
by the deferred `recover` after a runtime bounds panic. -/
inductive LookupResult where
  | found : List Nat → LookupResult
  | notFound : LookupResult
  | recovered : LookupResult
deriving DecidableEq, Repr

/-- Embeds the slot advance at the bottom of the probe loop:
`slot += slotWidth; if slot >= uint32(len(table)) { slot = 0 }`. -/
def nextSlot (slot tlen : Nat) : Nat :=
  if u32mod tlen ≤ u32mod (slot + 8) then 0 else u32mod (slot + 8)

/-- Embeds the record decode inside the probe loop of `(*CDB).Data`
(`record := db.data[pos:]` through `bytes.Equal` and the value slice).
`some r` means the loop returns `r`; `none` means the key did not match and
probing continues. -/
def tryRecord (dat key : List Nat) (rp : Nat) : Option LookupResult :=
  match slice? dat rp dat.length with
  | none => some .recovered
  | some record =>
    match readU32? record 0, readU32? record 4 with
    | some keyLen, some dataLen =>
      match slice? record 8 (u32mod (8 + keyLen)) with
      | none => some .recovered
      | some recKey =>
        if key = recKey then
          match slice? record (u32mod (8 + keyLen)) (u32mod (8 + keyLen + dataLen)) with
          | none => some .recovered
          | some v => some (.found v)
        else none
    | _, _ => some .recovered

/-- Embeds the two slot reads at the top of the probe loop
(`binary.LittleEndian.Uint32(table[slot:])` and `...(table[slot+4:])`,
the index `slot+4` computed in `uint32` arithmetic). -/
def readSlot (table : List Nat) (slot : Nat) : Option (Nat × Nat) :=
  match readU32? table slot, readU32? table (u32mod (slot + 4)) with
  | some h, some p => some (h, p)
  | _, _ => none

/-- Embeds the probe loop of `(*CDB).Data` (`for i := uint32(0); i < header.nslots; i++`),
with the remaining iteration count as fuel. -/
def dataStep (dat key : List Nat) (hashcode : Nat) (table : List Nat) :
    Nat → Nat → LookupResult
  | 0, _ => .notFound
  | n + 1, slot =>
    match readSlot table slot with
    | none => .recovered
    | some sr =>
      if sr.2 = 0 then .notFound
      else if sr.1 = hashcode then
        match tryRecord dat key sr.2 with
        | some r => r
        | none => dataStep dat key hashcode table n (nextSlot slot table.length)
      else dataStep dat key hashcode table n (nextSlot slot table.length)

/-- Embeds `(*CDB).Data` from `cdb.go`: hash the key, select the bucket by the
hash's low byte, slice the sub-table (`db.data[header.pos : header.pos+header.nslots*slotWidth]`,
computed in `uint32` arithmetic), and run the probe loop starting at
`((hashcode >> 8) % header.nslots) * slotWidth`. -/
def Data (db : CDB) (key : List Nat) : LookupResult :=
  let dat := db.data.getD []
  let hashcode := hashCDB key
  let ptr := db.header (hashcode &&& 255)
  if ptr.nslots = 0 then .notFound
  else
    match slice? dat ptr.pos (u32mod (ptr.pos + ptr.nslots * 8)) with
    | none => .recovered
    | some table =>
        dataStep dat key hashcode table ptr.nslots
          (u32mod (((hashcode >>> 8) % ptr.nslots) * 8))

/-- State-passing form of the probe loop: the Go loop body never assigns to any
field of the receiver `db`, so the receiver is carried through every branch and
returned unchanged at every exit. -/
def dataStepSt (db : CDB) (dat key : List Nat) (hashcode : Nat) (table : List Nat) :
    Nat → Nat → LookupResult × CDB
  | 0, _ => (.notFound, db)
  | n + 1, slot =>
    match readSlot table slot with
    | none => (.recovered, db)
    | some sr =>
      if sr.2 = 0 then (.notFound, db)
      else if sr.1 = hashcode then
        match tryRecord dat key sr.2 with
        | some r => (r, db)
        | none => dataStepSt db dat key hashcode table n (nextSlot slot table.length)
      else dataStepSt db dat key hashcode table n (nextSlot slot table.length)

/-- State-passing form of `(*CDB).Data`: the method reads `db.header` and
`db.data` but contains no assignment to either, so its faithful state-passing
translation returns the receiver alongside the result. -/
def DataSt (db : CDB) (key : List Nat) : LookupResult × CDB :=
  let dat := db.data.getD []
  let hashcode := hashCDB key
  let ptr := db.header (hashcode &&& 255)
  if ptr.nslots = 0 then (.notFound, db)
  else
    match slice? dat ptr.pos (u32mod (ptr.pos + ptr.nslots * 8)) with
    | none => (.recovered, db)
    | some table =>
        dataStepSt db dat key hashcode table ptr.nslots
          (u32mod (((hashcode >>> 8) % ptr.nslots) * 8))

/-- Embeds `(*CDB).Close`: `Munmap` runs only when `db.data != nil`, and
`db.data` is set to nil unconditionally.  The returned `Bool` records whether
`Munmap` was invoked by this call. -/
def Close (db : CDB) : CDB × Bool :=
  match db.data with
  | some _ => (⟨db.header, none⟩, true)
  | none => (⟨db.header, none⟩, false)

/-- Errors of `Open` that depend only on the file contents: `errShortFile`
("file is too short for a CDB"), the error the spec calls `CorruptDatabase`. -/
inductive OpenErr where
  | shortFile : OpenErr
deriving DecidableEq, Repr

/-- Embeds `readHeader` from `cdb.go`: entry `i` (for `i < 256`) holds the
little-endian `uint32` pair at byte offset `8*i`. -/
def readHeaderFn (dat : List Nat) : Nat → TablePointer :=
  fun i => if i < 256 then ⟨readU32spec dat (8 * i), readU32spec dat (8 * i + 4)⟩ else ⟨0, 0⟩

/-- Embeds the content-dependent logic of `Open` from `cdb.go` (the `os.Open`,
`Stat` and `Mmap` syscalls are abstracted away; `contents` is the file's bytes):
a zero-size file yields `&CDB{}` (zero header, nil data); a nonzero size below
`headerSize = 2048` yields `errShortFile`; otherwise the file is mapped and the
header parsed once. -/
def OpenModel (contents : List Nat) : Except OpenErr CDB :=
  if contents.length = 0 then .ok ⟨fun _ => ⟨0, 0⟩, none⟩
  else if contents.length < 2048 then .error .shortFile
  else .ok ⟨readHeaderFn contents, some contents⟩

/-- Handle returned by `Open` for a zero-length file: `&CDB{}`, the Go zero
value — an all-zero header array and a nil mapping. -/
def emptyCDB : CDB := ⟨fun _ => ⟨0, 0⟩, none⟩

/-- Embeds `AppendString` from `util.go`: appends `uint8(len(b))` (the length
reduced mod 256 by the `uint8` conversion; the `l > 255` guard can never fire)
followed by the bytes of `s`. -/
def AppendString (data s : List Nat) : List Nat :=
  data ++ (s.length % 256) :: s

/-- Embeds `ReadString` from `util.go`: `slen := uint8(data[0])`, then the
slice `data[1 : slen+1]` whose high bound `slen+1` is computed in `uint8`
arithmetic (so it wraps to 0 when `slen = 255`), returning the string and the
consumed count `int(slen + 1)` (same `uint8` wraparound).  `none` models the
bounds panic. -/
def ReadString (data : List Nat) : Option (List Nat × Nat) :=
  match data.get? 0 with
  | none => none
  | some slen =>
      let hi := (slen + 1) % 256
      if 1 ≤ hi ∧ hi ≤ data.length then some ((data.drop 1).take (hi - 1), hi) else none

/-- Models `strconv.AppendUint(data, n, 10)` (Go standard library, external to
this repository): the ASCII decimal digits of `n`, most significant first. -/
def decRep (n : Nat) : List Nat :=
  if h : n < 10 then [48 + n] else decRep (n / 10) ++ [48 + n % 10]
decreasing_by exact Nat.div_lt_self (by omega) (by omega)

/-- Embeds `AppendRecord` from `util.go`: `'+'`, decimal key length, `','`,
decimal value length, `':'`, the key bytes, `"->"`, the value bytes, `'\n'`. -/
def AppendRecord (data key value : List Nat) : List Nat :=
  ((((((((data ++ [43]) ++ decRep key.length) ++ [44]) ++ decRep value.length) ++ [58]) ++ key)
      ++ [45, 62]) ++ value) ++ [10]

/-- Outcomes of the external steps taken by `Create` (pipe creation, process
start, the creator callback, the terminating-newline write, pipe close, process
wait), plus the bytes the creator callback wrote to the pipe. -/
structure CreateEnv where
  stdinPipeFails : Bool
  startFails : Bool
  creatorOut : List Nat
  creatorFails : Bool
  writeNLFails : Bool
  closeFails : Bool
  waitFails : Bool
deriving DecidableEq, Repr

/-- Error value returned by `Create`. -/
inductive CreateErr where
  | startErr : CreateErr
  | writeErr : CreateErr
  | joined : Bool → Bool → Bool → CreateErr
deriving DecidableEq, Repr

/-- Observable outcome of `Create`: its returned error (if any), whether
`cdbPipe.Close()` was invoked, and the bytes fed to the builder's stdin. -/
structure CreateOutcome where
  result : Option CreateErr
  pipeClosed : Bool
  written : List Nat
deriving DecidableEq, Repr

/-- Embeds `Create` from `cdb.go`, step by step: a `StdinPipe` failure returns
`nil` (the literal `return nil` in the source); a `Start` failure returns that
error; the creator's error is collected into `errs`; a failure of the
terminating `cdbPipe.Write([]byte("\n"))` is returned immediately (before
`cdbPipe.Close()` is reached); otherwise `Close` and `Wait` run, their errors
are collected, and the joined `errs` (if nonempty) is returned. -/
def Create (env : CreateEnv) : CreateOutcome :=
  if env.stdinPipeFails then ⟨none, false, []⟩
  else if env.startFails then ⟨some .startErr, false, []⟩
  else if env.writeNLFails then ⟨some .writeErr, false, env.creatorOut⟩
  else if env.creatorFails || env.closeFails || env.waitFails then
    ⟨some (.joined env.creatorFails env.closeFails env.waitFails), true, env.creatorOut ++ [10]⟩
  else ⟨none, true, env.creatorOut ++ [10]⟩

/-! Specification-side definitions, written from the spec's words, to be
compared with the embedded code above. -/

/-- Written from the spec's reference definition of the hash (§4.1): seed
`h = 5381`; for each byte `c` of the key in order,
`h = ((h << 5) + h) XOR c` with 32-bit wraparound arithmetic. -/
def hashRun : Nat → List Nat → Nat
  | h, [] => h
  | h, c :: cs => hashRun (u32mod ((h <<< 5) + h) ^^^ c) cs

/-- The spec's hash function applied from the seed. -/
def hashSpecC3 (key : List Nat) : Nat := hashRun 5381 key

/-- Result of the spec's lookup (§4.3), restricted to the outcomes the claimed
probe description produces: a value or `NotFound`. -/
inductive SpecResult where
  | found : List Nat → SpecResult
  | notFound : SpecResult
deriving DecidableEq, Repr

/-- Injection of spec lookup results into the code's result type. -/
def embedSpec : SpecResult → LookupResult
  | .found v => .found v
  | .notFound => .notFound

/-- Spec (§3): the stored hash of slot `j` of the sub-table at `pos`. -/
def specSlotHash (dat : List Nat) (pos j : Nat) : Nat :=
  readU32spec dat (pos + 8 * j)

/-- Spec (§3): the record position of slot `j` of the sub-table at `pos`. -/
def specSlotPos (dat : List Nat) (pos j : Nat) : Nat :=
  readU32spec dat (pos + 8 * j + 4)

/-- Spec (§3/§4.1): the key length of the record at `rp`. -/
def specKeyLen (dat : List Nat) (rp : Nat) : Nat := readU32spec dat rp

/-- Spec (§3/§4.1): the value length of the record at `rp`. -/
def specValLen (dat : List Nat) (rp : Nat) : Nat := readU32spec dat (rp + 4)

/-- Spec (§4.1): the key bytes of the record at `rp` (immediately after the two
length fields). -/
def specRecKey (dat : List Nat) (rp : Nat) : List Nat :=
  (dat.drop (rp + 8)).take (specKeyLen dat rp)

/-- Spec (§4.1): the value bytes of the record at `rp` (immediately after the
key bytes). -/
def specRecVal (dat : List Nat) (rp : Nat) : List Nat :=
  (dat.drop (rp + 8 + specKeyLen dat rp)).take (specValLen dat rp)

/-- Written from the claimed probe description (§4.3, step 5): iterate at most
`slot_count` steps from the start slot, advancing by one slot and wrapping to
slot 0 after the last slot; an empty slot (`record_position == 0`) returns
`NotFound`; a slot whose stored hash equals the query hash and whose decoded
record key equals the query key returns the decoded value; anything else
continues probing; exhausting all steps returns `NotFound`. -/
def specProbe (dat key : List Nat) (h pos nslots : Nat) : Nat → Nat → SpecResult
  | 0, _ => .notFound
  | n + 1, j =>
    if specSlotPos dat pos j = 0 then .notFound
    else if specSlotHash dat pos j = h ∧ specRecKey dat (specSlotPos dat pos j) = key then
      .found (specRecVal dat (specSlotPos dat pos j))
    else specProbe dat key h pos nslots n (if j + 1 = nslots then 0 else j + 1)

/-- Written from the claim: the full specified lookup — hash the key, select
the sub-table by the hash's low byte, and probe starting at slot
`(hash >> 8) mod slot_count` for at most `slot_count` steps. -/
def lookupSpec (db : CDB) (key : List Nat) : SpecResult :=
  let dat := db.data.getD []
  let h := hashSpecC3 key
  let ptr := db.header (h &&& 255)
  specProbe dat key h ptr.pos ptr.nslots ptr.nslots ((h >>> 8) % ptr.nslots)

/-- Record ranges of the record at `rp` fit inside the mapped bytes (when the
slot is occupied). -/
def recRangeOK (dat : List Nat) (rp : Nat) : Prop :=
  rp ≠ 0 → rp + 8 + specKeyLen dat rp + specValLen dat rp ≤ dat.length

/-- Structural well-formedness of an open handle: the mapped size fits in a
`uint32`, every nonempty bucket's sub-table lies inside the mapped bytes, and
every occupied slot's record ranges lie inside the mapped bytes. -/
def wellFormed (db : CDB) : Prop :=
  (db.data.getD []).length < 4294967296 ∧
  ∀ b, b < 256 →
    ((db.header b).nslots ≠ 0 →
      (db.header b).pos + (db.header b).nslots * 8 ≤ (db.data.getD []).length) ∧
    ∀ j, j < (db.header b).nslots →
      recRangeOK (db.data.getD []) (specSlotPos (db.data.getD []) (db.header b).pos j)

instance (dat : List Nat) (rp : Nat) : Decidable (recRangeOK dat rp) := by
  unfold recRangeOK; infer_instance

instance (db : CDB) : Decidable (wellFormed db) := by
  unfold wellFormed; infer_instance

/-- Written from the spec's feed format (§6): the decimal digits of `n`,
defined through `Nat.digits`, with `0` rendered as `"0"`. -/
def specDecimal (n : Nat) : List Nat :=
  if n = 0 then [48] else ((Nat.digits 10 n).map (fun d => 48 + d)).reverse

/-! Concrete databases used as witnesses and counterexamples.  `dat19` holds a
single record `(key, value) = ([97], [98])` at position 1 and a one-slot
sub-table at position 11 whose slot stores `hashCDB [97] = 177604`
(little-endian `[196, 181, 2, 0]`) and record position 1. -/

/-- Nineteen mapped bytes: one record at position 1, one sub-table at 11. -/
def dat19 : List Nat := [0, 1, 0, 0, 0, 1, 0, 0, 0, 97, 98, 196, 181, 2, 0, 1, 0, 0, 0]

/-- Well-formed one-record database over `dat19`: bucket 196 (the low byte of
`hashCDB [97]`) points at the one-slot sub-table. -/
def wdb : CDB := ⟨fun b => if b = 196 then ⟨11, 1⟩ else ⟨0, 0⟩, some dat19⟩

/-- Corrupt handle over `dat19`: every bucket claims a two-slot sub-table at
position 11, whose range `11 + 2*8 = 27` exceeds the 19 mapped bytes. -/
def cdbOOB : CDB := ⟨fun _ => ⟨11, 2⟩, some dat19⟩

/-! Helper lemmas. -/

theorem hashStep_eq (h c : Nat) :
    u32mod (u32mod (h <<< 5) + h) ^^^ c = u32mod ((h <<< 5) + h) ^^^ c := by
  unfold u32mod
  rw [Nat.mod_add_mod]

theorem hashRun_eq (key : List Nat) :
    ∀ h, key.foldl (fun h c => u32mod (u32mod (h <<< 5) + h) ^^^ c) h = hashRun h key := by
  induction key with
  | nil => intro h; rfl
  | cons c cs ih =>
    intro h
    simp only [List.foldl_cons, hashRun]
    rw [ih, hashStep_eq]

theorem hashCDB_eq_spec (key : List Nat) : hashCDB key = hashSpecC3 key :=
  hashRun_eq key 5381

theorem hash_lt_aux (key : List Nat) :
    ∀ h, h < 4294967296 → (∀ c ∈ key, c < 256) →
      key.foldl (fun h c => u32mod (u32mod (h <<< 5) + h) ^^^ c) h < 4294967296 := by
  induction key with
  | nil => intro h hh _; simpa using hh
  | cons c cs ih =>
    intro h hh hc
    simp only [List.foldl_cons]
    apply ih
    · have h1 : u32mod (u32mod (h <<< 5) + h) < 2 ^ 32 :=
        Nat.mod_lt _ (by norm_num)
      have h2 : c < 2 ^ 32 := by
        have := hc c (by simp)
        omega
      have := Nat.xor_lt_two_pow h1 h2
      omega
    · intro x hx
      exact hc x (by simp [hx])

/-- Reading an in-range index with `get?` agrees with `getD`. -/
theorem get?_of_lt (l : List Nat) (i : Nat) (h : i < l.length) :
    l.get? i = some (l.getD i 0) := by
  rw [List.getD_eq_getD_get?]
  rcases h' : l.get? i with _ | a
  · rw [List.get?_eq_none] at h'
    omega
  · rfl

/-- An in-bounds four-byte read agrees with the total specification read. -/
theorem readU32_some (l : List Nat) (off : Nat) (h : off + 4 ≤ l.length) :
    readU32? l off = some (readU32spec l off) := by
  unfold readU32? readU32spec
  rw [get?_of_lt l off (by omega), get?_of_lt l (off + 1) (by omega),
    get?_of_lt l (off + 2) (by omega), get?_of_lt l (off + 3) (by omega)]

/-- The probe loop threads the receiver through unchanged. -/
theorem dataStepSt_eq (db : CDB) (dat key : List Nat) (hc : Nat) (table : List Nat) :
    ∀ n slot, dataStepSt db dat key hc table n slot = (dataStep dat key hc table n slot, db) := by
  intro n
  induction n with
  | zero => intro slot; rfl
  | succ n ih =>
    intro slot
    simp only [dataStepSt, dataStep]
    rcases readSlot table slot with _ | sr
    · rfl
    · by_cases h2 : sr.2 = 0
      · simp [h2]
      · by_cases h1 : sr.1 = hc
        · simp only [h2, h1, if_true, if_false, ite_false, ite_true]
          rcases tryRecord dat key sr.2 with _ | r
          · exact ih _
          · rfl
        · simp only [h2, h1, if_false, ite_false]
          exact ih _

/-- Top-level form of the state-threading equation. -/
theorem dataSt_eq (db : CDB) (key : List Nat) : DataSt db key = (Data db key, db) := by
  unfold DataSt Data
  by_cases h : (db.header (hashCDB key &&& 255)).nslots = 0
  · simp [h]
  · simp only [h, if_false, ite_false]
    rcases slice? (db.data.getD []) (db.header (hashCDB key &&& 255)).pos
        (u32mod ((db.header (hashCDB key &&& 255)).pos + (db.header (hashCDB key &&& 255)).nslots * 8)) with _ | table
    · rfl
    · exact dataStepSt_eq db (db.data.getD []) key (hashCDB key) table
        (db.header (hashCDB key &&& 255)).nslots
        (u32mod (hashCDB key >>> 8 % (db.header (hashCDB key &&& 255)).nslots * 8))

/-- C8: lookup never mutates handle state.  In state-passing form, `Data`
returns its result together with the receiver, and the receiver comes back
unchanged whatever the result is: the parsed header and the mapped byte range
after the call are those before it, so lookup is a pure read. -/
theorem data_pure (db : CDB) (key : List Nat) :
    (DataSt db key).2 = db ∧ (DataSt db key).1 = Data db key := by
  rw [dataSt_eq]
  exact ⟨rfl, rfl⟩

/-- C3: the hash used by lookup equals the spec's DJB-variant reference
definition on every byte sequence; on byte-valued input it stays within 32
bits; and it is order-sensitive (witnessed on the two orderings of `"ab"`).
It is the sole hash `Data` computes (see `Data`, which both selects the bucket
and matches slots with `hashCDB key`). -/
theorem hash_matches_reference (key : List Nat) :
    hashCDB key = hashSpecC3 key ∧
    ((∀ c ∈ key, c < 256) → hashCDB key < 4294967296) ∧
    hashCDB [97, 98] ≠ hashCDB [98, 97] := by
  refine ⟨hashCDB_eq_spec key, ?_, by decide⟩
  intro hc
  exact hash_lt_aux key 5381 (by norm_num) hc

theorem hash_matches_reference_witness :
    hashCDB [104, 105] = hashSpecC3 [104, 105] ∧ hashCDB [104, 105] < 4294967296 :=
  ⟨(hash_matches_reference [104, 105]).1,
    (hash_matches_reference [104, 105]).2.1 (by decide)⟩

/-- C4: opening a zero-length file succeeds with a handle holding no mapping
and an all-empty header, and every lookup on that handle — any key, the empty
one included — returns `NotFound` and never any other error. -/
theorem open_empty_always_notFound :
    OpenModel [] = .ok emptyCDB ∧ ∀ key : List Nat, Data emptyCDB key = .notFound := by
  constructor
  · rfl
  · intro key
    simp [Data, emptyCDB]

/-- C5: a file of nonzero size below the 2048-byte directory size fails to open
with `errShortFile` (the spec's `CorruptDatabase`); no handle is returned. -/
theorem open_short_file (contents : List Nat)
    (h0 : contents.length ≠ 0) (h1 : contents.length < 2048) :
    OpenModel contents = .error .shortFile := by
  unfold OpenModel
  rw [if_neg h0, if_pos h1]

theorem open_short_file_witness : OpenModel [7] = .error .shortFile :=
  open_short_file [7] (by decide) (by decide)

/-- C7: `Close` is idempotent.  The first call releases the mapping exactly
when one is held (`(Close db).2 = db.data.isSome`) and leaves a handle with no
mapping; a second call on the resulting handle changes nothing and performs no
release (`Munmap` is not invoked again). -/
theorem close_idempotent (db : CDB) :
    (Close db).2 = db.data.isSome ∧
    ((Close db).1).data = none ∧
    Close ((Close db).1) = ((Close db).1, false) := by
  rcases hd : db.data with _ | d <;> simp [Close, hd]

/-- C10 (code bug): at the 255-byte boundary `ReadString` is not a left inverse
of `AppendString`.  `AppendString` encodes a 255-byte string as a length byte
255 followed by the bytes, but `ReadString` computes the slice bound
`slen + 1` in `uint8` arithmetic, which wraps to 0, and `data[1:0]` is a
bounds panic (`none` here) instead of the documented `(s, 256)`. -/
theorem readString_255_bug :
    ReadString (AppendString [] (List.replicate 255 97)) = none := by decide

/-- For lengths up to 254 the round trip does hold, consuming `len + 1`
bytes — the inverse property breaks only at 255. -/
theorem readString_appendString (s : List Nat) (h : s.length ≤ 254) :
    ReadString (AppendString [] s) = some (s, s.length + 1) := by
  unfold ReadString AppendString
  have hmod : s.length % 256 = s.length := Nat.mod_eq_of_lt (by omega)
  simp only [List.nil_append]
  rw [show ((s.length % 256 :: s : List Nat).get? 0) = some (s.length % 256) from rfl]
  rw [hmod]
  have hmod2 : (s.length + 1) % 256 = s.length + 1 := Nat.mod_eq_of_lt (by omega)
  show (if 1 ≤ (s.length + 1) % 256 ∧ (s.length + 1) % 256 ≤ (s.length :: s).length then
      some ((List.drop 1 (s.length :: s)).take ((s.length + 1) % 256 - 1), (s.length + 1) % 256)
    else none) = some (s, s.length + 1)
  rw [hmod2]
  rw [if_pos (by constructor <;> simp)]
  simp

/-- The model of `strconv.AppendUint` renders exactly the spec's decimal
digits. -/
theorem decRep_eq_specDecimal (n : Nat) : decRep n = specDecimal n := by
  induction n using Nat.strong_induction_on with
  | _ n ih =>
    by_cases h : n < 10
    · rw [decRep.eq_def, dif_pos h]
      by_cases h0 : n = 0
      · subst h0; simp [specDecimal]
      · unfold specDecimal
        rw [if_neg h0]
        rw [Nat.digits_def' (by norm_num : (1:ℕ) < 10) (Nat.pos_of_ne_zero h0)]
        rw [Nat.div_eq_of_lt h, Nat.digits_zero]
        simp [Nat.mod_eq_of_lt h]
    · rw [decRep.eq_def, dif_neg h]
      have hdiv : n / 10 < n := Nat.div_lt_self (by omega) (by omega)
      rw [ih _ hdiv]
      have h0 : n ≠ 0 := by omega
      have h10 : n / 10 ≠ 0 := by omega
      unfold specDecimal
      rw [if_neg h0, if_neg h10]
      rw [Nat.digits_def' (by norm_num : (1:ℕ) < 10) (Nat.pos_of_ne_zero h0)]
      simp

/-- C9: each record is emitted as exactly `'+'` (43), the decimal key length,
`','` (44), the decimal value length, `':'` (58), the key bytes, `"->"`
(45, 62), the value bytes, and a newline (10); and on the path where the
adapter's writes succeed, the whole feed is terminated by the final blank line
(the lone `'\n'` written after the creator callback). -/
theorem appendRecord_feed_format (data key value : List Nat) (env : CreateEnv)
    (hp : env.stdinPipeFails = false) (hs : env.startFails = false)
    (hw : env.writeNLFails = false) :
    AppendRecord data key value =
      data ++ [43] ++ specDecimal key.length ++ [44] ++ specDecimal value.length ++ [58]
        ++ key ++ [45, 62] ++ value ++ [10] ∧
    (Create env).written = env.creatorOut ++ [10] := by
  constructor
  · simp [AppendRecord, decRep_eq_specDecimal, List.append_assoc]
  · unfold Create
    rw [hp, hs, hw]
    simp only [Bool.false_eq_true, if_false, ite_false]
    rcases hcw : env.creatorFails || env.closeFails || env.waitFails with _ | _ <;> simp [hcw]

/-- Environment for the feed-format witness: all external steps succeed and the
creator wrote the bytes `[49, 50]`. -/
def env0 : CreateEnv := ⟨false, false, [49, 50], false, false, false, false⟩

theorem appendRecord_feed_format_witness :
    AppendRecord [] [97] [49, 50] = [43, 49, 44, 50, 58, 97, 45, 62, 49, 50, 10] ∧
    (Create env0).written = [49, 50, 10] := by
  have h := appendRecord_feed_format [] [97] [49, 50] env0 rfl rfl rfl
  constructor
  · rw [h.1]; simp [specDecimal]
  · rw [h.2]; decide

/-- Environment in which the write of the terminating `"\n"` fails (pipe
creation, start and the creator all succeeded). -/
def envW : CreateEnv := ⟨false, false, [], false, true, false, false⟩

/-- C6 counterexample: when the adapter's own terminating-newline write fails,
`Create` returns that write error immediately — before ever reaching
`cdbPipe.Close()` — so the builder's input stream is NOT closed, contradicting
"it always closes the builder's input stream, even when a write … fails
partway through". -/
theorem create_write_failure_skips_close :
    (Create envW).result = some .writeErr ∧ (Create envW).pipeClosed = false := by
  constructor <;> rfl

/-- C6 amended: with the pipe created and the process started, `Create`
propagates a failure of its terminating-newline write as the returned error
(but then skips closing the input stream), and on every path where that write
succeeds it closes the input stream and returns an error exactly when the
creator callback, the pipe close, or the process wait failed (so creator,
close, and process-exit failures are all propagated). -/
theorem create_error_propagation (env : CreateEnv)
    (hp : env.stdinPipeFails = false) (hs : env.startFails = false) :
    (env.writeNLFails = true →
      (Create env).result = some .writeErr ∧ (Create env).pipeClosed = false) ∧
    (env.writeNLFails = false →
      (Create env).pipeClosed = true ∧
      ((Create env).result = none ↔
        env.creatorFails = false ∧ env.closeFails = false ∧ env.waitFails = false)) := by
  unfold Create
  rw [hp, hs]
  cases hw : env.writeNLFails <;>
    cases hc : env.creatorFails <;>
      cases hcl : env.closeFails <;>
        cases hwt : env.waitFails <;> simp [hw, hc, hcl, hwt]

theorem create_error_propagation_witness :
    (Create ⟨false, false, [], true, false, false, true⟩).pipeClosed = true ∧
    (Create ⟨false, false, [], true, false, false, true⟩).result ≠ none := by
  have h := (create_error_propagation ⟨false, false, [], true, false, false, true⟩ rfl rfl).2 rfl
  refine ⟨h.1, fun hn => ?_⟩
  have := h.2.mp hn
  simp at this

/-- C2 counterexample: on `cdbOOB` the sub-table range `11 + 2*8 = 27` exceeds
the 19 mapped bytes, and lookup does NOT return a `CorruptDatabase` value
produced by advance validation — the code has no such error and no such check;
instead the out-of-bounds slice panics and the deferred `recover` converts the
panic into the returned error (`LookupResult.recovered`).  The claimed
pre-validated `CorruptDatabase` return is therefore false of this code. -/
theorem data_oob_counterexample : Data cdbOOB [] = .recovered := by decide

/-- C2 amended: no offset arithmetic is validated in advance.  When the
sub-table range `ptr.pos + ptr.nslots*8` (computed with `uint32` wraparound)
does not lie inside the mapped buffer, the slice panics and `Data` returns the
recovered panic as an error — the process does not abort, but the error is the
recovered runtime error, not a distinct `CorruptDatabase` value. -/
theorem data_oob_table_recovered (db : CDB) (key : List Nat)
    (hn : (db.header (hashCDB key &&& 255)).nslots ≠ 0)
    (hoob : ¬((db.header (hashCDB key &&& 255)).pos ≤
        u32mod ((db.header (hashCDB key &&& 255)).pos + (db.header (hashCDB key &&& 255)).nslots * 8) ∧
      u32mod ((db.header (hashCDB key &&& 255)).pos + (db.header (hashCDB key &&& 255)).nslots * 8) ≤
        (db.data.getD []).length)) :
    Data db key = .recovered := by
  simp only [Data]
  rw [if_neg hn]
  unfold slice?
  rw [if_neg hoob]

theorem data_oob_table_recovered_witness : Data cdbOOB [97] = .recovered :=
  data_oob_table_recovered cdbOOB [97] (by decide) (by decide)

/-! Agreement of the embedded probe loop with the spec's probe, on well-formed
databases. -/

/-- A four-byte read inside the sliced sub-table agrees with the spec read at
the corresponding absolute offset. -/
theorem readU32_slice (dat : List Nat) (pos m off : Nat)
    (hm : pos + m ≤ dat.length) (hoff : off + 4 ≤ m) :
    readU32? ((dat.drop pos).take m) off = some (readU32spec dat (pos + off)) := by
  have hk : ∀ k, k < m → ((dat.drop pos).take m).get? k = dat.get? (pos + k) := by
    intro k hkm
    rw [List.get?_take hkm, List.get?_drop]
  unfold readU32? readU32spec
  rw [hk off (by omega), hk (off + 1) (by omega), hk (off + 2) (by omega),
    hk (off + 3) (by omega)]
  rw [show pos + (off + 1) = pos + off + 1 from by omega,
    show pos + (off + 2) = pos + off + 2 from by omega,
    show pos + (off + 3) = pos + off + 3 from by omega]
  rw [get?_of_lt dat (pos + off) (by omega), get?_of_lt dat (pos + off + 1) (by omega),
    get?_of_lt dat (pos + off + 2) (by omega), get?_of_lt dat (pos + off + 3) (by omega)]

/-- A four-byte read inside `dat.drop rp` (the record slice `db.data[pos:]`)
agrees with the spec read at the corresponding absolute offset. -/
theorem readU32_drop (dat : List Nat) (rp off : Nat) (h : rp + off + 4 ≤ dat.length) :
    readU32? (dat.drop rp) off = some (readU32spec dat (rp + off)) := by
  unfold readU32? readU32spec
  rw [List.get?_drop, List.get?_drop, List.get?_drop, List.get?_drop]
  rw [show rp + (off + 1) = rp + off + 1 from by omega,
    show rp + (off + 2) = rp + off + 2 from by omega,
    show rp + (off + 3) = rp + off + 3 from by omega]
  rw [get?_of_lt dat (rp + off) (by omega), get?_of_lt dat (rp + off + 1) (by omega),
    get?_of_lt dat (rp + off + 2) (by omega), get?_of_lt dat (rp + off + 3) (by omega)]

/-- On an in-range occupied slot, the embedded record decode agrees with the
spec's record decode: it returns the decoded value exactly when the decoded key
equals the query key, and signals "continue probing" otherwise. -/
theorem tryRecord_eq (dat key : List Nat) (rp : Nat)
    (hlen : dat.length < 4294967296)
    (hb : rp + 8 + specKeyLen dat rp + specValLen dat rp ≤ dat.length) :
    tryRecord dat key rp =
      if specRecKey dat rp = key then some (.found (specRecVal dat rp)) else none := by
  have h1 : slice? dat rp dat.length = some (dat.drop rp) := by
    unfold slice?
    rw [if_pos ⟨by omega, le_refl _⟩]
    rw [← List.length_drop]
    rw [List.take_length]
  have h2 : readU32? (dat.drop rp) 0 = some (specKeyLen dat rp) := by
    have := readU32_drop dat rp 0 (by omega)
    simpa using this
  have h3 : readU32? (dat.drop rp) 4 = some (specValLen dat rp) :=
    readU32_drop dat rp 4 (by omega)
  have hm1 : u32mod (8 + specKeyLen dat rp) = 8 + specKeyLen dat rp :=
    u32mod_eq_of_lt (by omega)
  have h4 : slice? (dat.drop rp) 8 (8 + specKeyLen dat rp) = some (specRecKey dat rp) := by
    unfold slice?
    rw [if_pos ⟨by omega, by rw [List.length_drop]; omega⟩]
    unfold specRecKey
    rw [List.drop_drop, Nat.add_sub_cancel_left]
  have hm2 : u32mod (8 + specKeyLen dat rp + specValLen dat rp) =
      8 + specKeyLen dat rp + specValLen dat rp :=
    u32mod_eq_of_lt (by omega)
  have h5 : slice? (dat.drop rp) (8 + specKeyLen dat rp)
      (8 + specKeyLen dat rp + specValLen dat rp) = some (specRecVal dat rp) := by
    unfold slice?
    rw [if_pos ⟨by omega, by rw [List.length_drop]; omega⟩]
    unfold specRecVal
    rw [List.drop_drop, Nat.add_sub_cancel_left]
    rw [show rp + (8 + specKeyLen dat rp) = rp + 8 + specKeyLen dat rp from by omega]
  unfold tryRecord
  rw [h1]
  show (match readU32? (dat.drop rp) 0, readU32? (dat.drop rp) 4 with
    | some keyLen, some dataLen =>
      match slice? (dat.drop rp) 8 (u32mod (8 + keyLen)) with
      | none => some LookupResult.recovered
      | some recKey =>
        if key = recKey then
          match slice? (dat.drop rp) (u32mod (8 + keyLen)) (u32mod (8 + keyLen + dataLen)) with
          | none => some LookupResult.recovered
          | some v => some (LookupResult.found v)
        else none
    | _, _ => some LookupResult.recovered) = _
  rw [h2, h3]
  show (match slice? (dat.drop rp) 8 (u32mod (8 + specKeyLen dat rp)) with
    | none => some LookupResult.recovered
    | some recKey =>
      if key = recKey then
        match slice? (dat.drop rp) (u32mod (8 + specKeyLen dat rp))
            (u32mod (8 + specKeyLen dat rp + specValLen dat rp)) with
        | none => some LookupResult.recovered
        | some v => some (LookupResult.found v)
      else none) = _
  rw [hm1, hm2, h4, h5]
  show (if key = specRecKey dat rp then some (LookupResult.found (specRecVal dat rp)) else none) = _
  by_cases hk : specRecKey dat rp = key
  · rw [if_pos hk.symm, if_pos hk]
  · rw [if_neg (fun hx => hk hx.symm), if_neg hk]

/-- On a well-formed sub-table, the embedded probe loop follows the spec's
probe step for step: same slot order with the same wraparound, the same early
`NotFound` on an empty slot, the same hash-then-key match, and the same
exhaustion bound. -/
theorem dataStep_agree (dat key : List Nat) (hc pos nslots : Nat)
    (hlen : dat.length < 4294967296)
    (htab : pos + nslots * 8 ≤ dat.length)
    (hrec : ∀ j, j < nslots → recRangeOK dat (specSlotPos dat pos j)) :
    ∀ n j, j < nslots →
      dataStep dat key hc ((dat.drop pos).take (nslots * 8)) n (8 * j) =
        embedSpec (specProbe dat key hc pos nslots n j) := by
  intro n
  induction n with
  | zero => intro j hj; rfl
  | succ n ih =>
    intro j hj
    have htl : ((dat.drop pos).take (nslots * 8)).length = nslots * 8 := by
      rw [List.length_take, List.length_drop]
      omega
    have hsh : readU32? ((dat.drop pos).take (nslots * 8)) (8 * j) =
        some (specSlotHash dat pos j) :=
      readU32_slice dat pos (nslots * 8) (8 * j) htab (by omega)
    have hm4 : u32mod (8 * j + 4) = 8 * j + 4 := u32mod_eq_of_lt (by omega)
    have hrp : readU32? ((dat.drop pos).take (nslots * 8)) (8 * j + 4) =
        some (specSlotPos dat pos j) :=
      readU32_slice dat pos (nslots * 8) (8 * j + 4) htab (by omega)
    have hslot : readSlot ((dat.drop pos).take (nslots * 8)) (8 * j) =
        some (specSlotHash dat pos j, specSlotPos dat pos j) := by
      unfold readSlot
      rw [hm4, hsh, hrp]
    have hnext : nextSlot (8 * j) (((dat.drop pos).take (nslots * 8)).length) =
        8 * (if j + 1 = nslots then 0 else j + 1) := by
      rw [htl]
      unfold nextSlot
      rw [u32mod_eq_of_lt (show 8 * j + 8 < 4294967296 from by omega),
        u32mod_eq_of_lt (show nslots * 8 < 4294967296 from by omega)]
      by_cases he : j + 1 = nslots
      · rw [if_pos (by omega), if_pos he]
      · rw [if_neg (by omega), if_neg he]
        omega
    have hj' : (if j + 1 = nslots then 0 else j + 1) < nslots := by
      by_cases he : j + 1 = nslots
      · rw [if_pos he]; omega
      · rw [if_neg he]; omega
    simp only [dataStep, specProbe]
    rw [hslot]
    show (if specSlotPos dat pos j = 0 then LookupResult.notFound
      else if specSlotHash dat pos j = hc then
        match tryRecord dat key (specSlotPos dat pos j) with
        | some r => r
        | none => dataStep dat key hc ((dat.drop pos).take (nslots * 8)) n
            (nextSlot (8 * j) ((dat.drop pos).take (nslots * 8)).length)
      else dataStep dat key hc ((dat.drop pos).take (nslots * 8)) n
          (nextSlot (8 * j) ((dat.drop pos).take (nslots * 8)).length)) = _
    rw [hnext]
    by_cases hz : specSlotPos dat pos j = 0
    · rw [if_pos hz, if_pos hz]
      rfl
    · rw [if_neg hz, if_neg hz]
      by_cases hh : specSlotHash dat pos j = hc
      · rw [if_pos hh, tryRecord_eq dat key (specSlotPos dat pos j) hlen (hrec j hj hz)]
        by_cases hk : specRecKey dat (specSlotPos dat pos j) = key
        · rw [if_pos hk,
            if_pos (show specSlotHash dat pos j = hc ∧
              specRecKey dat (specSlotPos dat pos j) = key from ⟨hh, hk⟩)]
          rfl
        · rw [if_neg hk,
            if_neg (show ¬(specSlotHash dat pos j = hc ∧
              specRecKey dat (specSlotPos dat pos j) = key) from fun hx => hk hx.2)]
          exact ih _ hj'
      · rw [if_neg hh,
          if_neg (show ¬(specSlotHash dat pos j = hc ∧
            specRecKey dat (specSlotPos dat pos j) = key) from fun hx => hh hx.1)]
        exact ih _ hj'

/-- C1: on every well-formed open handle, lookup follows the specified
open-addressing probe exactly — same start slot `(hash >> 8) mod slot_count` in
the sub-table selected by the hash's low byte, one slot per step with wrap to
slot 0, at most `slot_count` steps, immediate `NotFound` on an empty slot
(`record_position = 0`), the decoded value when both the stored hash and the
decoded key match (continuing on a hash collision with a different key), and
`NotFound` when all `slot_count` steps complete. -/
theorem data_follows_spec_probe (db : CDB) (hwf : wellFormed db) (key : List Nat) :
    Data db key = embedSpec (lookupSpec db key) := by
  obtain ⟨hlen, hbkt⟩ := hwf
  simp only [Data, lookupSpec]
  rw [← hashCDB_eq_spec key]
  have hb256 : hashCDB key &&& 255 < 256 := by
    have := Nat.and_le_right (n := hashCDB key) (m := 255)
    omega
  obtain ⟨htab, hrec⟩ := hbkt (hashCDB key &&& 255) hb256
  by_cases hz : (db.header (hashCDB key &&& 255)).nslots = 0
  · rw [if_pos hz, hz]
    rfl
  · rw [if_neg hz]
    set pos := (db.header (hashCDB key &&& 255)).pos with hpos
    set nslots := (db.header (hashCDB key &&& 255)).nslots with hns
    have htab' := htab hz
    have hslice : slice? (db.data.getD []) pos (u32mod (pos + nslots * 8)) =
        some (((db.data.getD []).drop pos).take (nslots * 8)) := by
      rw [u32mod_eq_of_lt (by omega)]
      unfold slice?
      rw [if_pos ⟨by omega, htab'⟩]
      rw [show pos + nslots * 8 - pos = nslots * 8 from by omega]
    rw [hslice]
    show dataStep (db.data.getD []) key (hashCDB key)
        (((db.data.getD []).drop pos).take (nslots * 8)) nslots
        (u32mod (hashCDB key >>> 8 % nslots * 8)) = _
    have hmodlt : hashCDB key >>> 8 % nslots < nslots :=
      Nat.mod_lt _ (Nat.pos_of_ne_zero hz)
    have hstart : u32mod (hashCDB key >>> 8 % nslots * 8) =
        8 * (hashCDB key >>> 8 % nslots) := by
      rw [u32mod_eq_of_lt (by omega)]
      omega
    rw [hstart]
    exact dataStep_agree (db.data.getD []) key (hashCDB key) pos nslots hlen htab' hrec
      nslots _ hmodlt

theorem data_follows_spec_probe_witness :
    wellFormed wdb ∧ Data wdb [97] = embedSpec (lookupSpec wdb [97]) :=
  ⟨by decide, data_follows_spec_probe wdb (by decide) [97]⟩



